import Mathlib

/-!
Verification of `coalib/settings/SectionManager.py`: the layered settings
resolution engine (merge of section dictionaries, config-file loading,
save-back, logging-object selection, defaults wiring, target capture and
the bear-list aliasing structure of `_fill_settings`).

Sections, settings and section dictionaries are embedded as ordered
association lists, mirroring the insertion-ordered Python dicts.  Collaborator
classes that are not part of the analysed file (`Section`, `Setting`,
`ConfParser`, the printers, the bear collector) are modelled from the spec,
each marked as such in its doc comment.
-/

set_option autoImplicit false

namespace Coala

universe u

/-! ## Ordered association lists (the embedding of Python ordered dicts) -/

/-- First-occurrence lookup in an ordered association list (Python `d[k]` /
`k in d`). -/
def alookup {α : Type u} (l : List (String × α)) (k : String) : Option α :=
  match l with
  | [] => none
  | (k2, v) :: t => if k2 = k then some v else alookup t k

/-- Python `d[k] = v`: replace the value at the first occurrence of `k`,
else append the new binding at the end (insertion order). -/
def aset {α : Type u} (l : List (String × α)) (k : String) (v : α) :
    List (String × α) :=
  match l with
  | [] => [(k, v)]
  | (k2, v2) :: t => if k2 = k then (k2, v) :: t else (k2, v2) :: aset t k v

/-- In-place update of the value stored at the first occurrence of `k`. -/
def amap {α : Type u} (l : List (String × α)) (k : String) (f : α → α) :
    List (String × α) :=
  match l with
  | [] => []
  | (k2, v2) :: t => if k2 = k then (k2, f v2) :: t else (k2, v2) :: amap t k f

/-- Python `d.pop(k)`: remove the (first) binding of `k`. -/
def aremove {α : Type u} (l : List (String × α)) (k : String) :
    List (String × α) :=
  match l with
  | [] => []
  | (k2, v2) :: t => if k2 = k then t else (k2, v2) :: aremove t k

/-- The keys of an association list, in order. -/
def akeys {α : Type u} (l : List (String × α)) : List String :=
  l.map Prod.fst

/-- A Python dict never holds a key twice; association lists produced by the
parsers satisfy this. -/
def keysNodup {α : Type u} (l : List (String × α)) : Prop :=
  (akeys l).Nodup

instance {α : Type u} (l : List (String × α)) : Decidable (keysNodup l) :=
  inferInstanceAs (Decidable (akeys l).Nodup)

/-- Python `str.lower()` (ASCII case folding), character by character. -/
def strLower (s : String) : String :=
  ⟨s.data.map Char.toLower⟩

/-- Python `str.upper()` (ASCII case folding), character by character. -/
def strUpper (s : String) : String :=
  ⟨s.data.map Char.toUpper⟩

/-- Split a character list at commas. -/
def splitComma : List Char → List (List Char)
  | [] => [[]]
  | c :: t =>
    let r := splitComma t
    if c = ',' then [] :: r
    else
      match r with
      | [] => [[c]]
      | h :: t2 => (c :: h) :: t2

/-! ## Data model: Setting, Section, SectionDict -/

/-- Modelled from the spec: a `Setting` (coalib/settings/Setting.py, not under
src/) is "a named value with a raw textual representation"; we keep the raw
textual value.  A section's `contents` are its explicitly present settings. -/
abbrev Contents := List (String × String)

/-- Modelled from the spec: a `Section` (coalib/settings/Section.py, not under
src/) is "an ordered mapping from setting name to Setting; unique keys;
insertion order preserved", holding "a weak (non-owning) reference to a
`defaults` Section used only for fallback lookup".  The reference is embedded
as the referenced section's name and contents (the referenced `default`
section itself never has a `defaults` link, so one level suffices). -/
structure Section where
  name : String
  contents : Contents
  defaults : Option (String × Contents)
deriving DecidableEq, Repr

/-- Modelled from the spec: `Section.get(name, fallback)` "checks self first,
then `defaults`, then the supplied fallback". -/
def sectionGet (s : Section) (key fallback : String) : String :=
  match alookup s.contents key with
  | some v => v
  | none =>
    match s.defaults with
    | some (_, dc) => (alookup dc key).getD fallback
    | none => fallback

/-- Modelled from the spec: `Section.update(other, ignore_defaults=True)`
copies every setting of `hi` into `lo` ("any setting explicitly present in
`higher` overwrites the corresponding setting in `lower` ...; settings present
only in `lower` are retained unchanged"); with `ignore_defaults=True` the
`defaults` link of `lo` is left untouched. -/
def sectionUpdate (lo hi : Section) : Section :=
  { lo with contents := hi.contents.foldl (fun acc kv => aset acc kv.1 kv.2) lo.contents }

/-- A section dictionary: ordered mapping from section name to section. -/
abbrev SectionDict := List (String × Section)

/-- Well-formedness of parser output: unique section names and unique setting
names per section. -/
def DictWF (d : SectionDict) : Prop :=
  keysNodup d ∧ ∀ p ∈ d, keysNodup (p.2 : Section).contents

instance (d : SectionDict) : Decidable (DictWF d) := by
  unfold DictWF; infer_instance

/-- Lookup of a single setting value: section `s`, setting `k` (only the
explicitly present contents, not the `defaults` chain). -/
def dictLookup (d : SectionDict) (s k : String) : Option String :=
  (alookup d s).bind fun sec => alookup sec.contents k

/-! ## `merge_section_dicts` (SectionManager.py lines 24-42) -/

/-- One iteration of the `for name in higher` loop of `merge_section_dicts`:
`if name in lower: lower[name].update(higher[name], ignore_defaults=True)
else: lower[name] = higher[name]`. -/
def mergeStep (acc : SectionDict) (nv : String × Section) : SectionDict :=
  if (alookup acc nv.1).isSome then
    amap acc nv.1 (fun s => sectionUpdate s nv.2)
  else
    acc ++ [(nv.1, nv.2)]

/-- Embedding of `merge_section_dicts(lower, higher)`: for every section name
of `higher`, in order: if present in `lower`, update `lower`'s section in
place via `Section.update(..., ignore_defaults=True)`; else insert the section
at the end.  Returns the mutated `lower`. -/
def merge_section_dicts (lower higher : SectionDict) : SectionDict :=
  higher.foldl mergeStep lower

/-! ## `load_config_file` (SectionManager.py lines 45-69) -/

/-- Modelled from the spec: the outcome of `ConfParser.reparse`
(coalib/parsing/ConfParser.py, not under src/): a parsed section dictionary,
a `FileNotFoundError`, or some other (parse) failure that `load_config_file`
does not catch. -/
inductive ParseResult where
  | ok (d : SectionDict)
  | fileNotFound
  | malformed (msg : String)
deriving DecidableEq

/-- The warning `load_config_file` emits for an absent file. -/
def missingCoafileWarning (filename : String) : String :=
  "The requested coafile " ++ filename ++ " does not exist. Thus it will not be used."

/-- Embedding of `load_config_file(filename, log_printer, silent)`.  The file
system and path resolution are parameters (`fs`, `abspath`); warnings written
to the log printer are collected in the returned list; an uncaught parser
failure becomes `Except.error`. -/
def load_config_file (abspath : String → String) (fs : String → ParseResult)
    (filename : String) (silent : Bool) :
    Except String (SectionDict × List String) :=
  let fn := abspath filename
  match fs fn with
  | .ok d => .ok (d, [])
  | .fileNotFound =>
    .ok ([("default", ⟨"default", [], none⟩)],
         if silent then [] else [missingCoafileWarning fn])
  | .malformed msg => .error msg

/-! ## `save_sections` (SectionManager.py lines 72-89) -/

/-- Modelled from the spec: boolean conversion of a `Setting`
(coalib/settings/Setting.py, not under src/): "boolean-like values parse via a
permissive truthy/falsy vocabulary"; anything outside the vocabulary raises
`ValueError`, modelled as `none`. -/
def str2bool (s : String) : Option Bool :=
  let l := strLower s
  if l ∈ ["true", "yes", "yeah", "always", "on", "1"] then some true
  else if l ∈ ["false", "no", "nope", "never", "off", "0"] then some false
  else none

/-- Embedding of `save_sections(sections)`.  Returns `none` when nothing is
written, or `some (path, written)` naming the output path and the written
sections; a missing `"default"` section would raise in Python, modelled as
`Except.error`. -/
def save_sections (sections : SectionDict) :
    Except String (Option (String × SectionDict)) :=
  match alookup sections "default" with
  | none => .error "KeyError: default"
  | some ds =>
    match str2bool (sectionGet ds "save" "false") with
    | some true => .ok (some (sectionGet ds "config" ".coafile", sections))
    | some false => .ok none
    | none => .ok (some (sectionGet ds "save" ".coafile", sections))

/-! ## `retrieve_logging_objects` (SectionManager.py lines 208-250) -/

/-- The log printers the manager can select.  The concrete printer classes
(coalib/output/printers, not under src/) are excluded collaborators; only
their selection is modelled, as tagged variants. -/
inductive LogPrinter where
  | console (log_level : Nat)
  | null
  | file (filename : String) (log_level : Nat)
deriving DecidableEq, Repr

/-- The interaction channels the manager can select (excluded collaborators,
modelled as tagged variants). -/
inductive Interactor where
  | nullInteractor
  | consoleInteractor
deriving DecidableEq, Repr

/-- Modelled from the spec: `LOG_LEVEL.str_dict`
(coalib/output/printers/LOG_LEVEL.py, not under src/): the upper-case log
level names mapped to their numeric values. -/
def LOG_LEVEL_str_dict : List (String × Nat) :=
  [("DEBUG", 0), ("WARNING", 1), ("ERROR", 2)]

/-- `LOG_LEVEL.WARNING`, the fallback log level. -/
def LOG_LEVEL_WARNING : Nat := 1

/-- The warning emitted when a logging method cannot be instantiated. -/
def failedPrinterWarning (log_type : String) : String :=
  "Failed to instantiate the logging method " ++ log_type ++
    ". Falling back to console output."

/-- Result of `retrieve_logging_objects`: the selected printer and
interactor, and the warnings logged while selecting. -/
structure LoggingObjects where
  log_printer : LogPrinter
  interactor : Interactor
  warnings : List String
deriving DecidableEq, Repr

/-- Embedding of `SectionManager.retrieve_logging_objects(section)`.
`fileOk` models whether `FilePrinter(filename)` construction succeeds;
`ConsolePrinter` and `NullPrinter` construction never fails. -/
def retrieve_logging_objects (fileOk : String → Bool) (sec : Section) :
    LoggingObjects :=
  let log_type := strLower (sectionGet sec "log_type" "console")
  let output_type := strLower (sectionGet sec "output" "console")
  let str_log_level := strUpper (sectionGet sec "log_level" "")
  let log_level := (alookup LOG_LEVEL_str_dict str_log_level).getD LOG_LEVEL_WARNING
  let printerWarnings : LogPrinter × List String :=
    if log_type = "console" then
      (LogPrinter.console log_level, [])
    else if log_type = "none" then
      (LogPrinter.null, [])
    else if fileOk log_type then
      (LogPrinter.file log_type log_level, [])
    else
      (LogPrinter.console log_level, [failedPrinterWarning log_type])
  let interactor :=
    if output_type = "none" then Interactor.nullInteractor
    else Interactor.consoleInteractor
  ⟨printerWarnings.1, interactor, printerWarnings.2⟩

/-! ## `_load_configuration` (SectionManager.py lines 169-206) -/

/-- Modelled from the spec: iterating a list-valued `Setting`
(coalib/settings/Setting.py, not under src/): "list-valued settings ...
accept delimiter-separated entries"; `list("")` is empty. -/
def settingToList (v : String) : List String :=
  ((splitComma v.data).map (fun l => (⟨l⟩ : String))).filter (fun s => s ≠ "")

/-- The result of `_load_configuration`: the section dictionary, the captured
targets, and the warnings logged on the way. -/
structure LoadedConfig where
  sections : SectionDict
  targets : List String
  warnings : List String
deriving DecidableEq, Repr

/-- The project config path computed at SectionManager.py lines 186-191:
`cli["default"].get("config", user["default"].get("config",
default["default"].get("config", ".coafile")))`, made absolute. -/
def project_config_path (abspath : String → String)
    (defaultDef userDef cliDef : Section) : String :=
  let default_config := sectionGet defaultDef "config" ".coafile"
  let user_config := sectionGet userDef "config" default_config
  abspath (sectionGet cliDef "config" user_config)

/-- Lines 204-206: every section except `"default"` gets its `defaults`
reference pointed at the merged `"default"` section.  (When this runs the
`"default"` key is always present, because `default_sections` carries one.) -/
def wire_defaults (d : SectionDict) : SectionDict :=
  match alookup d "default" with
  | none => d
  | some dflt =>
    d.map fun p =>
      if p.1 = "default" then p
      else (p.1, { p.2 with defaults := some (dflt.name, dflt.contents) })

/-- Lines 173-175: the captured targets, `item.lower()` for each value of
the CLI `default` section's `targets` setting (`list("")` when absent). -/
def cliTargets (cliDef : Section) : List String :=
  (match alookup cliDef.contents "targets" with
    | some v => settingToList v
    | none => []).map strLower

/-- Lines 173-174: the CLI sections after `contents.pop("targets", "")` on
the `"default"` section. -/
def popTargets (cli_sections : SectionDict) : SectionDict :=
  amap cli_sections "default"
    (fun s => { s with contents := aremove s.contents "targets" })

/-- Embedding of `_load_configuration` up to (and excluding) the defaults
wiring: CLI parse result is the `cli_sections` parameter (the `CliParser` is
an excluded collaborator), targets are popped from its `"default"` section
and lower-cased, the three config files are loaded (the user file silently),
the project config path is resolved by the chained `config` lookup, and the
four layers are merged lowest-to-highest.  A `KeyError` of the Python code
(missing `"default"` entry) is an `Except.error`. -/
def load_configuration_raw (abspath : String → String) (fs : String → ParseResult)
    (system_coafile user_coafile : String) (cli_sections : SectionDict) :
    Except String LoadedConfig :=
  match alookup cli_sections "default" with
  | none => .error "KeyError: default"
  | some cliDef =>
    match load_config_file abspath fs system_coafile false with
    | .error e => .error e
    | .ok (default_sections, w1) =>
      match load_config_file abspath fs user_coafile true with
      | .error e => .error e
      | .ok (user_sections, w2) =>
        match alookup default_sections "default" with
        | none => .error "KeyError: default"
        | some defaultDef =>
          match alookup user_sections "default" with
          | none => .error "KeyError: default"
          | some userDef =>
            match load_config_file abspath fs
                (project_config_path abspath defaultDef userDef
                  { cliDef with
                    contents := aremove cliDef.contents "targets" }) false with
            | .error e => .error e
            | .ok (coafile_sections, w3) =>
              .ok ⟨merge_section_dicts
                    (merge_section_dicts
                      (merge_section_dicts default_sections user_sections)
                      coafile_sections)
                    (popTargets cli_sections),
                  cliTargets cliDef,
                  w1 ++ w2 ++ w3⟩

/-- Embedding of `_load_configuration`: the merge pipeline followed by the
defaults wiring of lines 204-206. -/
def load_configuration (abspath : String → String) (fs : String → ParseResult)
    (system_coafile user_coafile : String) (cli_sections : SectionDict) :
    Except String LoadedConfig :=
  (load_configuration_raw abspath fs system_coafile user_coafile cli_sections).map
    fun r => { r with sections := wire_defaults r.sections }

/-! ## `_fill_settings` bear-list aliasing (SectionManager.py lines 252-274)

`collect_bears` and `SectionFiller` are excluded collaborators; what the
analysed code itself does is `all_bears = copy.deepcopy(local_bears);
all_bears.extend(global_bears)`.  To make aliasing statable, bear descriptors
live in an explicit heap of object identities: a descriptor is a heap id, and
`copy.deepcopy` of a descriptor list allocates fresh ids carrying the same
payload. -/

/-- Modelled from the spec: the heap of `PluginDescriptor` objects
("descriptors ... data records"); `nextId` is the next unallocated object id,
`store` maps allocated ids to payloads. -/
structure BearHeap where
  nextId : Nat
  store : List (Nat × String)
deriving DecidableEq, Repr

/-- First-occurrence lookup by object id. -/
def hlookup (l : List (Nat × String)) (i : Nat) : Option String :=
  match l with
  | [] => none
  | (j, v) :: t => if j = i then some v else hlookup t i

/-- Overwrite the payload stored at id `i` (a mutation of that object). -/
def hset (l : List (Nat × String)) (i : Nat) (v : String) : List (Nat × String) :=
  match l with
  | [] => [(i, v)]
  | (j, v2) :: t => if j = i then (j, v) :: t else (j, v2) :: hset t i v

/-- `copy.deepcopy` on a descriptor list: allocate a fresh object per entry,
copying its payload; returns the fresh ids and the grown heap. -/
def deepcopyBears (h : BearHeap) (ids : List Nat) : List Nat × BearHeap :=
  match ids with
  | [] => ([], h)
  | i :: t =>
    let fresh := h.nextId
    let v := (hlookup h.store i).getD ""
    let h2 : BearHeap := ⟨fresh + 1, h.store ++ [(fresh, v)]⟩
    let (rest, h3) := deepcopyBears h2 t
    (fresh :: rest, h3)

/-- Lines 269-270 of `_fill_settings`: `all_bears = copy.deepcopy(local_bears);
all_bears.extend(global_bears)` — the combined list handed to the section
filler, and the heap after the copy. -/
def fill_settings_all_bears (h : BearHeap) (local_bears global_bears : List Nat) :
    List Nat × BearHeap :=
  let (copies, h2) := deepcopyBears h local_bears
  (copies ++ global_bears, h2)

/-- Mutate the descriptor with id `i` in place. -/
def mutateBear (h : BearHeap) (i : Nat) (v : String) : BearHeap :=
  ⟨h.nextId, hset h.store i v⟩

/-- The payload sequence a stored descriptor list observes in a heap. -/
def bearValues (h : BearHeap) (ids : List Nat) : List (Option String) :=
  ids.map (hlookup h.store)

/-- Heap validity: every id of the list is already allocated. -/
def idsValid (h : BearHeap) (ids : List Nat) : Prop :=
  ∀ i ∈ ids, i < h.nextId

instance (h : BearHeap) (ids : List Nat) : Decidable (idsValid h ids) := by
  unfold idsValid; infer_instance

/-! ## Predicates used by the theorems -/

/-- No section of the dictionary carries a `defaults` reference yet (the state
of all parser outputs and of everything up to the final merge). -/
def DefaultsFree (d : SectionDict) : Prop :=
  ∀ p ∈ d, (p.2 : Section).defaults = none

instance (d : SectionDict) : Decidable (DefaultsFree d) := by
  unfold DefaultsFree; infer_instance

/-- Well-formedness of every dictionary the config parser can produce: unique
keys, no `defaults` reference, and the guaranteed `"default"` entry ("a
section named `default` always exists even if absent in the file"). -/
def FsWellFormed (fs : String → ParseResult) : Prop :=
  ∀ p d, fs p = ParseResult.ok d →
    DictWF d ∧ DefaultsFree d ∧ (alookup d "default").isSome = true

/-- From the spec's words (for comparison with `project_config_path`): "the
CLI `default` section's `config` setting if present, otherwise the user-level
file's `config` setting, otherwise the system default file's `config`
setting, otherwise the literal `.coafile`, with the result converted to an
absolute path". -/
def chained_config_path (abspath : String → String)
    (cliDef userDef defaultDef : Section) : String :=
  abspath ((alookup cliDef.contents "config").getD
    ((alookup userDef.contents "config").getD
      ((alookup defaultDef.contents "config").getD ".coafile")))

/-! ## Association-list lemmas -/

theorem alookup_aset {α : Type u} (l : List (String × α)) (k : String) (v : α)
    (k2 : String) :
    alookup (aset l k v) k2 = if k = k2 then some v else alookup l k2 := by
  induction l with
  | nil => simp [aset, alookup]
  | cons h t ih =>
    obtain ⟨k0, v0⟩ := h
    by_cases hk : k0 = k
    · subst hk
      by_cases hk2 : k0 = k2 <;> simp [aset, alookup, hk2]
    · by_cases hk2 : k0 = k2
      · subst hk2
        have hne : k ≠ k0 := fun h => hk h.symm
        simp [aset, alookup, hk, hne]
      · simp [aset, alookup, hk, hk2, ih]

theorem alookup_append {α : Type u} (l m : List (String × α)) (k : String) :
    alookup (l ++ m) k = (alookup l k).or (alookup m k) := by
  induction l with
  | nil => simp [alookup]
  | cons h t ih =>
    obtain ⟨k0, v0⟩ := h
    by_cases hk : k0 = k <;> simp [alookup, hk, ih]

theorem alookup_amap {α : Type u} (l : List (String × α)) (k : String)
    (f : α → α) (k2 : String) :
    alookup (amap l k f) k2 =
      if k = k2 then (alookup l k2).map f else alookup l k2 := by
  induction l with
  | nil => simp [amap, alookup]
  | cons h t ih =>
    obtain ⟨k0, v0⟩ := h
    by_cases hk : k0 = k
    · subst hk
      by_cases hk2 : k0 = k2 <;> simp [amap, alookup, hk2]
    · by_cases hk2 : k0 = k2
      · subst hk2
        have hne : k ≠ k0 := fun h => hk h.symm
        simp [amap, alookup, hk, hne]
      · simp [amap, alookup, hk, hk2, ih]

theorem alookup_eq_none_of_not_mem {α : Type u} (l : List (String × α))
    (k : String) (h : k ∉ akeys l) : alookup l k = none := by
  induction l with
  | nil => rfl
  | cons hd t ih =>
    obtain ⟨k0, v0⟩ := hd
    simp only [akeys, List.map_cons, List.mem_cons] at h
    push_neg at h
    have hk : ¬k0 = k := fun hkk => h.1 hkk.symm
    simp [alookup, hk, ih (by simpa [akeys] using h.2)]

theorem alookup_of_mem_nodup {α : Type u} (l : List (String × α)) (k : String)
    (v : α) (hnd : keysNodup l) (hm : (k, v) ∈ l) : alookup l k = some v := by
  induction l with
  | nil => cases hm
  | cons hd t ih =>
    obtain ⟨k0, v0⟩ := hd
    simp only [keysNodup, akeys, List.map_cons, List.nodup_cons] at hnd
    rcases List.mem_cons.mp hm with heq | hmt
    · rw [Prod.mk.injEq] at heq
      obtain ⟨rfl, rfl⟩ := heq
      simp [alookup]
    · have hk : k0 ≠ k := by
        rintro rfl
        exact hnd.1 (List.mem_map.mpr ⟨(k0, v), hmt, rfl⟩)
      have ht : keysNodup t := hnd.2
      simp [alookup, hk, ih ht hmt]

theorem alookup_mem {α : Type u} (l : List (String × α)) (k : String) (v : α)
    (h : alookup l k = some v) : (k, v) ∈ l := by
  induction l with
  | nil => cases h
  | cons hd t ih =>
    obtain ⟨k0, v0⟩ := hd
    by_cases hk : k0 = k
    · subst hk
      simp [alookup] at h
      simp [h]
    · simp [alookup, hk] at h
      exact List.mem_cons_of_mem _ (ih h)

theorem aset_self {α : Type u} (l : List (String × α)) (k : String) (v : α)
    (h : alookup l k = some v) : aset l k v = l := by
  induction l with
  | nil => cases h
  | cons hd t ih =>
    obtain ⟨k0, v0⟩ := hd
    by_cases hk : k0 = k
    · subst hk
      simp [alookup] at h
      simp [aset, h]
    · simp [alookup, hk] at h
      simp [aset, hk, ih h]

theorem amap_self {α : Type u} (l : List (String × α)) (k : String) (v : α)
    (f : α → α) (h : alookup l k = some v) (hf : f v = v) : amap l k f = l := by
  induction l with
  | nil => rfl
  | cons hd t ih =>
    obtain ⟨k0, v0⟩ := hd
    by_cases hk : k0 = k
    · subst hk
      simp [alookup] at h
      subst h
      simp [amap, hf]
    · simp [alookup, hk] at h
      simp [amap, hk, ih h]

theorem alookup_foldl_aset (entries l : Contents) (k : String)
    (h : keysNodup entries) :
    alookup (entries.foldl (fun acc kv => aset acc kv.1 kv.2) l) k
      = (alookup entries k).or (alookup l k) := by
  induction entries generalizing l with
  | nil => simp [alookup]
  | cons hd t ih =>
    obtain ⟨k0, v0⟩ := hd
    simp only [keysNodup, akeys, List.map_cons, List.nodup_cons] at h
    have ht : keysNodup t := h.2
    rw [List.foldl_cons, ih _ ht]
    by_cases hk : k0 = k
    · subst hk
      have : alookup t k0 = none :=
        alookup_eq_none_of_not_mem t k0 (by simpa [akeys] using h.1)
      simp [alookup, alookup_aset, this]
    · simp [alookup, alookup_aset, hk]

/-! ## Merge characterization lemmas -/

theorem mergeStep_lookup (lo : SectionDict) (s0 : String) (sec0 : Section)
    (hnd : keysNodup sec0.contents) (s k : String) :
    dictLookup (mergeStep lo (s0, sec0)) s k =
      if s0 = s then (alookup sec0.contents k).or (dictLookup lo s k)
      else dictLookup lo s k := by
  unfold mergeStep dictLookup
  by_cases hin : (alookup lo s0).isSome
  · simp only [hin, if_true]
    rw [alookup_amap]
    by_cases hs : s0 = s
    · subst hs
      cases hlo : alookup lo s0 with
      | none => simp [hlo] at hin
      | some losec =>
        simp [hlo, sectionUpdate, alookup_foldl_aset _ _ _ hnd]
    · simp [hs]
  · rw [Option.not_isSome_iff_eq_none] at hin
    rw [hin]
    simp only [Option.isSome_none, Bool.false_eq_true, if_false]
    rw [alookup_append]
    by_cases hs : s0 = s
    · subst hs
      simp [alookup, hin]
    · simp [alookup, hs]

theorem merge_lookup (hi : SectionDict) (lo : SectionDict) (hwf : DictWF hi)
    (s k : String) :
    dictLookup (merge_section_dicts lo hi) s k
      = (dictLookup hi s k).or (dictLookup lo s k) := by
  induction hi generalizing lo with
  | nil => simp [merge_section_dicts, dictLookup, alookup]
  | cons hd t ih =>
    obtain ⟨s0, sec0⟩ := hd
    obtain ⟨hknd, hcont⟩ := hwf
    simp only [keysNodup, akeys, List.map_cons, List.nodup_cons] at hknd
    have hc0 : keysNodup sec0.contents := hcont (s0, sec0) (List.mem_cons_self _ _)
    have hwf_t : DictWF t :=
      ⟨hknd.2, fun p hp => hcont p (List.mem_cons_of_mem _ hp)⟩
    rw [show merge_section_dicts lo ((s0, sec0) :: t)
          = merge_section_dicts (mergeStep lo (s0, sec0)) t from rfl,
        ih _ hwf_t, mergeStep_lookup lo s0 sec0 hc0 s k]
    by_cases hs : s0 = s
    · subst hs
      have ht : alookup t s0 = none :=
        alookup_eq_none_of_not_mem t s0 (by simpa [akeys] using hknd.1)
      simp [dictLookup, alookup, ht]
    · simp [dictLookup, alookup, hs]

theorem mergeStep_mem (lo : SectionDict) (s0 : String) (sec0 : Section)
    (s : String) :
    (alookup (mergeStep lo (s0, sec0)) s).isSome = true ↔
      (alookup lo s).isSome = true ∨ s0 = s := by
  unfold mergeStep
  by_cases hin : (alookup lo s0).isSome
  · simp only [hin, if_true]
    rw [alookup_amap]
    by_cases hs : s0 = s
    · subst hs
      simp [hin]
    · simp [hs]
  · rw [Option.not_isSome_iff_eq_none] at hin
    rw [hin]
    simp only [Option.isSome_none, Bool.false_eq_true, if_false]
    rw [alookup_append]
    by_cases hs : s0 = s
    · subst hs
      simp [alookup, hin]
    · simp [alookup, hs]

theorem merge_mem (hi : SectionDict) (lo : SectionDict) (s : String) :
    (alookup (merge_section_dicts lo hi) s).isSome = true ↔
      (alookup lo s).isSome = true ∨ (alookup hi s).isSome = true := by
  induction hi generalizing lo with
  | nil => simp [merge_section_dicts, alookup]
  | cons hd t ih =>
    obtain ⟨s0, sec0⟩ := hd
    rw [show merge_section_dicts lo ((s0, sec0) :: t)
          = merge_section_dicts (mergeStep lo (s0, sec0)) t from rfl, ih]
    rw [mergeStep_mem]
    by_cases hs : s0 = s
    · subst hs
      simp [alookup]
    · simp [alookup, hs]

/-! ## Idempotence lemmas -/

theorem foldl_aset_id (entries l : Contents)
    (h : ∀ kv ∈ entries, alookup l kv.1 = some kv.2) :
    entries.foldl (fun acc kv => aset acc kv.1 kv.2) l = l := by
  induction entries with
  | nil => rfl
  | cons hd t ih =>
    rw [List.foldl_cons, aset_self l hd.1 hd.2 (h hd (List.mem_cons_self _ _))]
    exact ih fun kv hkv => h kv (List.mem_cons_of_mem _ hkv)

theorem sectionUpdate_self (s : Section) (h : keysNodup s.contents) :
    sectionUpdate s s = s := by
  unfold sectionUpdate
  rw [foldl_aset_id s.contents s.contents
    (fun kv hkv => alookup_of_mem_nodup s.contents kv.1 kv.2 h hkv)]

theorem mergeStep_self (X : SectionDict) (hwf : DictWF X)
    (e : String × Section) (he : e ∈ X) : mergeStep X e = X := by
  obtain ⟨n, sec⟩ := e
  have hl : alookup X n = some sec := alookup_of_mem_nodup X n sec hwf.1 he
  unfold mergeStep
  simp only [hl, Option.isSome_some, if_true]
  exact amap_self X n sec _ hl (sectionUpdate_self sec (hwf.2 (n, sec) he))

theorem merge_foldl_id (X : SectionDict) (hwf : DictWF X) (es : SectionDict)
    (hes : ∀ e ∈ es, e ∈ X) : es.foldl mergeStep X = X := by
  induction es with
  | nil => rfl
  | cons hd t ih =>
    rw [List.foldl_cons, mergeStep_self X hwf hd (hes hd (List.mem_cons_self _ _))]
    exact ih fun e hle => hes e (List.mem_cons_of_mem _ hle)

/-! ## Defaults-wiring lemmas -/

theorem amap_forall {α : Type u} {P : String × α → Prop} (l : List (String × α))
    (k : String) (f : α → α) (hl : ∀ p ∈ l, P p)
    (hf : ∀ k2 v, P (k2, v) → P (k2, f v)) : ∀ p ∈ amap l k f, P p := by
  induction l with
  | nil => intro p hp; cases hp
  | cons hd t ih =>
    obtain ⟨k0, v0⟩ := hd
    intro p hp
    by_cases hk : k0 = k
    · subst hk
      rw [show amap ((k0, v0) :: t) k0 f = (k0, f v0) :: t by simp [amap]] at hp
      rcases List.mem_cons.mp hp with rfl | hp
      · exact hf k0 v0 (hl _ (List.mem_cons_self _ _))
      · exact hl p (List.mem_cons_of_mem _ hp)
    · rw [show amap ((k0, v0) :: t) k f = (k0, v0) :: amap t k f by simp [amap, hk]] at hp
      rcases List.mem_cons.mp hp with rfl | hp
      · exact hl _ (List.mem_cons_self _ _)
      · exact ih (fun q hq => hl q (List.mem_cons_of_mem _ hq)) p hp

theorem mergeStep_defaultsFree (lo : SectionDict) (e : String × Section)
    (hlo : DefaultsFree lo) (he : (e.2 : Section).defaults = none) :
    DefaultsFree (mergeStep lo e) := by
  unfold mergeStep
  by_cases hin : (alookup lo e.1).isSome
  · simp only [hin, if_true]
    exact amap_forall lo e.1 _ hlo
      (fun k2 v hv => by simpa [sectionUpdate] using hv)
  · simp only [hin, Bool.false_eq_true, if_false]
    intro p hp
    rcases List.mem_append.mp hp with hp | hp
    · exact hlo p hp
    · rcases List.mem_singleton.mp hp with rfl
      exact he

theorem merge_defaultsFree (hi : SectionDict) (lo : SectionDict)
    (hlo : DefaultsFree lo) (hhi : DefaultsFree hi) :
    DefaultsFree (merge_section_dicts lo hi) := by
  induction hi generalizing lo with
  | nil => exact hlo
  | cons hd t ih =>
    exact ih (mergeStep lo hd)
      (mergeStep_defaultsFree lo hd hlo (hhi hd (List.mem_cons_self _ _)))
      (fun p hp => hhi p (List.mem_cons_of_mem _ hp))

theorem alookup_map_keyfix {f : String × Section → String × Section}
    (hf : ∀ p, (f p).1 = p.1) (d : SectionDict) (k : String) :
    alookup (d.map f) k = (alookup d k).map (fun v => (f (k, v)).2) := by
  induction d with
  | nil => rfl
  | cons hd t ih =>
    obtain ⟨k0, v0⟩ := hd
    by_cases hk : k0 = k
    · subst hk
      have h1 : (f (k0, v0)).1 = k0 := hf (k0, v0)
      simp only [List.map_cons, alookup, h1, if_true]
      rw [show f (k0, v0) = ((f (k0, v0)).1, (f (k0, v0)).2) from rfl, h1]
      rfl
    · have h1 : (f (k0, v0)).1 = k0 := hf (k0, v0)
      simp only [List.map_cons, alookup, h1, hk, if_false, ih]

theorem wire_lookup_default (d : SectionDict) :
    alookup (wire_defaults d) "default" = alookup d "default" := by
  unfold wire_defaults
  cases hd : alookup d "default" with
  | none => exact hd
  | some dflt =>
    rw [alookup_map_keyfix (by intro p; by_cases hp : p.1 = "default" <;> simp [hp])]
    simp [hd]

theorem wire_dictLookup (d : SectionDict) (s k : String) :
    dictLookup (wire_defaults d) s k = dictLookup d s k := by
  unfold wire_defaults
  cases hd : alookup d "default" with
  | none => rfl
  | some dflt =>
    unfold dictLookup
    rw [alookup_map_keyfix (by intro p; by_cases hp : p.1 = "default" <;> simp [hp])]
    cases hs : alookup d s with
    | none => rfl
    | some sec => by_cases hsd : s = "default" <;> simp [hsd]

theorem wire_defaults_set (d : SectionDict) (dflt : Section)
    (hd : alookup d "default" = some dflt) :
    ∀ p ∈ wire_defaults d, p.1 ≠ "default" →
      (p.2 : Section).defaults = some (dflt.name, dflt.contents) := by
  unfold wire_defaults
  rw [hd]
  intro p hp hne
  obtain ⟨q, hq, rfl⟩ := List.mem_map.mp hp
  by_cases hqd : q.1 = "default"
  · exact absurd (by simp [hqd]) hne
  · simp [hqd]

theorem load_config_file_good (abspath : String → String)
    (fs : String → ParseResult) (fn : String) (silent : Bool)
    (hfs : FsWellFormed fs) (d : SectionDict) (w : List String)
    (h : load_config_file abspath fs fn silent = .ok (d, w)) :
    DictWF d ∧ DefaultsFree d ∧ (alookup d "default").isSome = true := by
  simp only [load_config_file] at h
  cases hp : fs (abspath fn) with
  | ok d2 =>
    rw [hp] at h
    simp only [Except.ok.injEq, Prod.mk.injEq] at h
    obtain ⟨rfl, -⟩ := h
    exact hfs _ _ hp
  | fileNotFound =>
    rw [hp] at h
    simp only [Except.ok.injEq, Prod.mk.injEq] at h
    obtain ⟨rfl, -⟩ := h
    refine ⟨by decide, by decide, rfl⟩
  | malformed msg =>
    rw [hp] at h
    cases h

/-! ## Destructuring `load_configuration_raw` -/

theorem load_configuration_raw_spec (abspath : String → String)
    (fs : String → ParseResult) (sys usr : String) (cli : SectionDict)
    (r : LoadedConfig)
    (h : load_configuration_raw abspath fs sys usr cli = .ok r) :
    ∃ cliDef ds w1 us w2 defaultDef userDef cs w3,
      alookup cli "default" = some cliDef ∧
      load_config_file abspath fs sys false = .ok (ds, w1) ∧
      load_config_file abspath fs usr true = .ok (us, w2) ∧
      alookup ds "default" = some defaultDef ∧
      alookup us "default" = some userDef ∧
      load_config_file abspath fs
          (project_config_path abspath defaultDef userDef
            { cliDef with contents := aremove cliDef.contents "targets" }) false
        = .ok (cs, w3) ∧
      r = ⟨merge_section_dicts
            (merge_section_dicts (merge_section_dicts ds us) cs)
            (popTargets cli),
          cliTargets cliDef,
          w1 ++ w2 ++ w3⟩ := by
  unfold load_configuration_raw at h
  split at h
  · exact Except.noConfusion h
  · rename_i cliDef hc
    split at h
    · exact Except.noConfusion h
    · rename_i ds w1 h1
      split at h
      · exact Except.noConfusion h
      · rename_i us w2 h2
        split at h
        · exact Except.noConfusion h
        · rename_i defaultDef h3
          split at h
          · exact Except.noConfusion h
          · rename_i userDef h4
            split at h
            · exact Except.noConfusion h
            · rename_i cs w3 h5
              exact ⟨cliDef, ds, w1, us, w2, defaultDef, userDef, cs, w3,
                hc, h1, h2, h3, h4, h5,
                ((Except.ok.injEq _ _).mp h).symm⟩

theorem load_configuration_raw_good (abspath : String → String)
    (fs : String → ParseResult) (sys usr : String) (cli : SectionDict)
    (hfs : FsWellFormed fs) (hcli : DefaultsFree cli) (r : LoadedConfig)
    (h : load_configuration_raw abspath fs sys usr cli = .ok r) :
    DefaultsFree r.sections ∧ (alookup r.sections "default").isSome = true := by
  obtain ⟨cliDef, ds, w1, us, w2, dDef, uDef, cs, w3,
    hc, h1, h2, h3, h4, h5, hr⟩ :=
    load_configuration_raw_spec abspath fs sys usr cli r h
  subst hr
  obtain ⟨-, hdsF, hdsD⟩ := load_config_file_good _ _ _ _ hfs _ _ h1
  obtain ⟨-, husF, -⟩ := load_config_file_good _ _ _ _ hfs _ _ h2
  obtain ⟨-, hcsF, -⟩ := load_config_file_good _ _ _ _ hfs _ _ h5
  have hcliF : DefaultsFree (popTargets cli) :=
    amap_forall cli "default" _ hcli (fun k2 v hv => hv)
  constructor
  · exact merge_defaultsFree _ _
      (merge_defaultsFree _ _ (merge_defaultsFree _ _ hdsF husF) hcsF) hcliF
  · apply (merge_mem _ _ _).mpr; left
    apply (merge_mem _ _ _).mpr; left
    apply (merge_mem _ _ _).mpr; left
    exact hdsD

/-! ## Targets-removal lemmas -/

theorem aremove_sublist {α : Type u} (l : List (String × α)) (k : String) :
    List.Sublist (aremove l k) l := by
  induction l with
  | nil => exact List.Sublist.refl _
  | cons hd t ih =>
    obtain ⟨k0, v0⟩ := hd
    by_cases hk : k0 = k
    · simp only [aremove, hk, if_true]
      exact List.sublist_cons_of_sublist _ (List.Sublist.refl _)
    · simp only [aremove, hk, if_false]
      exact List.Sublist.cons₂ _ ih

theorem keysNodup_aremove {α : Type u} (l : List (String × α)) (k : String)
    (h : keysNodup l) : keysNodup (aremove l k) :=
  List.Nodup.sublist (List.Sublist.map Prod.fst (aremove_sublist l k)) h

theorem alookup_aremove_self {α : Type u} (l : List (String × α)) (k : String)
    (h : keysNodup l) : alookup (aremove l k) k = none := by
  induction l with
  | nil => rfl
  | cons hd t ih =>
    obtain ⟨k0, v0⟩ := hd
    simp only [keysNodup, akeys, List.map_cons, List.nodup_cons] at h
    by_cases hk : k0 = k
    · subst hk
      simp only [aremove, if_pos rfl]
      exact alookup_eq_none_of_not_mem t k0 (by simpa [akeys] using h.1)
    · simp only [aremove, hk, if_false, alookup]
      exact ih h.2

theorem akeys_amap {α : Type u} (l : List (String × α)) (k : String)
    (f : α → α) : akeys (amap l k f) = akeys l := by
  induction l with
  | nil => rfl
  | cons hd t ih =>
    obtain ⟨k0, v0⟩ := hd
    by_cases hk : k0 = k
    · simp [amap, akeys, hk]
    · simp only [amap, hk, if_false, akeys, List.map_cons, List.cons.injEq,
        true_and]
      simpa [akeys] using ih

theorem popTargets_WF (cli : SectionDict) (h : DictWF cli) :
    DictWF (popTargets cli) := by
  refine ⟨?_, ?_⟩
  · show keysNodup (amap cli "default" _)
    unfold keysNodup
    rw [akeys_amap]
    exact h.1
  · exact amap_forall cli "default" _ h.2
      (fun k2 v hv => keysNodup_aremove v.contents "targets" hv)

theorem dictLookup_popTargets (cli : SectionDict) (cliDef : Section)
    (hc : alookup cli "default" = some cliDef)
    (hnd : keysNodup cliDef.contents) :
    dictLookup (popTargets cli) "default" "targets" = none := by
  unfold popTargets dictLookup
  rw [alookup_amap, if_pos rfl, hc]
  exact alookup_aremove_self cliDef.contents "targets" hnd

theorem load_config_file_no_targets (abspath : String → String)
    (fs : String → ParseResult) (fn : String) (silent : Bool)
    (hnt : ∀ p d, fs p = ParseResult.ok d →
      dictLookup d "default" "targets" = none)
    (d : SectionDict) (w : List String)
    (h : load_config_file abspath fs fn silent = .ok (d, w)) :
    dictLookup d "default" "targets" = none := by
  simp only [load_config_file] at h
  cases hp : fs (abspath fn) with
  | ok d2 =>
    rw [hp] at h
    simp only [Except.ok.injEq, Prod.mk.injEq] at h
    obtain ⟨rfl, -⟩ := h
    exact hnt _ _ hp
  | fileNotFound =>
    rw [hp] at h
    simp only [Except.ok.injEq, Prod.mk.injEq] at h
    obtain ⟨rfl, -⟩ := h
    rfl
  | malformed msg =>
    rw [hp] at h
    cases h

/-! ## Claim theorems -/

/-- C1: merging updates `lower` so that every setting explicitly present in
`higher`'s section overwrites the same-named setting of `lower`'s section
while settings only in `lower` are retained; sections present only in
`higher` are inserted; and the fold of the four layers (defaults, user,
project, CLI) gives every setting the value of the highest layer that
explicitly set it, else absence. -/
theorem merge_precedence (d u p c : SectionDict)
    (hu : DictWF u) (hp : DictWF p) (hc : DictWF c) (s k : String) :
    (∀ lo hi, DictWF hi →
        dictLookup (merge_section_dicts lo hi) s k
          = (dictLookup hi s k).or (dictLookup lo s k)) ∧
    (∀ lo hi, (alookup (merge_section_dicts lo hi) s).isSome = true ↔
        (alookup lo s).isSome = true ∨ (alookup hi s).isSome = true) ∧
    dictLookup
        (merge_section_dicts (merge_section_dicts (merge_section_dicts d u) p) c)
        s k
      = (dictLookup c s k).or ((dictLookup p s k).or
          ((dictLookup u s k).or (dictLookup d s k))) := by
  refine ⟨fun lo hi hwf => merge_lookup hi lo hwf s k,
          fun lo hi => merge_mem hi lo s, ?_⟩
  rw [merge_lookup c _ hc, merge_lookup p _ hp, merge_lookup u _ hu]

theorem merge_precedence_witness :
    dictLookup
        (merge_section_dicts (merge_section_dicts (merge_section_dicts
          [("default", (⟨"default", [("a", "1"), ("b", "2")], none⟩ : Section))]
          [("default", (⟨"default", [("a", "3")], none⟩ : Section))]) [])
          [("x", (⟨"x", [("a", "9")], none⟩ : Section))]) "default" "a"
      = some "3" :=
  ((merge_precedence _ _ _ _ (by decide) (by decide) (by decide)
    "default" "a").2.2).trans (by decide)

/-- C6: merging a section dictionary with one of equal content changes
nothing (idempotence of `merge_section_dicts`). -/
theorem merge_idempotent (X : SectionDict) (h : DictWF X) :
    merge_section_dicts X X = X :=
  merge_foldl_id X h X (fun _ he => he)

theorem merge_idempotent_witness :
    merge_section_dicts
        [("default", (⟨"default", [("a", "1")], none⟩ : Section)),
         ("sec", (⟨"sec", [("b", "2")], none⟩ : Section))]
        [("default", (⟨"default", [("a", "1")], none⟩ : Section)),
         ("sec", (⟨"sec", [("b", "2")], none⟩ : Section))]
      = [("default", (⟨"default", [("a", "1")], none⟩ : Section)),
         ("sec", (⟨"sec", [("b", "2")], none⟩ : Section))] :=
  merge_idempotent _ (by decide)

/-- C2: for a path that does not resolve to an existing config file,
`load_config_file` returns a dictionary holding exactly one section,
`"default"`, with no settings, and emits exactly one warning iff `silent` is
false. -/
theorem load_config_file_missing (abspath : String → String)
    (fs : String → ParseResult) (filename : String) (silent : Bool)
    (h : fs (abspath filename) = ParseResult.fileNotFound) :
    load_config_file abspath fs filename silent =
      .ok ([("default", ⟨"default", [], none⟩)],
        if silent then [] else [missingCoafileWarning (abspath filename)]) := by
  simp only [load_config_file, h]

theorem load_config_file_missing_witness :
    load_config_file id (fun _ => ParseResult.fileNotFound) ".coafile" false =
      .ok ([("default", ⟨"default", [], none⟩)],
        [missingCoafileWarning ".coafile"]) :=
  load_config_file_missing id _ ".coafile" false rfl

/-- C7: `load_config_file` recovers only from the file-not-found case; a
parse failure of an existing file propagates to the caller unchanged. -/
theorem load_config_file_malformed (abspath : String → String)
    (fs : String → ParseResult) (filename : String) (silent : Bool)
    (msg : String) (h : fs (abspath filename) = ParseResult.malformed msg) :
    load_config_file abspath fs filename silent = .error msg := by
  simp only [load_config_file, h]

theorem load_config_file_malformed_witness :
    load_config_file id (fun _ => ParseResult.malformed "bad syntax")
        ".coafile" false = .error "bad syntax" :=
  load_config_file_malformed id _ ".coafile" false "bad syntax" rfl

/-- C3: `save_sections` writes iff the default section's `save` setting is
truthy or unparsable: truthy boolean writes to the `config` setting's path
(default `.coafile`); falsy boolean writes nothing; an unparsable `save`
value is itself used as the output path. -/
theorem save_sections_spec (sections : SectionDict) (ds : Section)
    (h : alookup sections "default" = some ds) :
    (str2bool (sectionGet ds "save" "false") = some true →
        save_sections sections =
          .ok (some (sectionGet ds "config" ".coafile", sections))) ∧
    (str2bool (sectionGet ds "save" "false") = some false →
        save_sections sections = .ok none) ∧
    (str2bool (sectionGet ds "save" "false") = none →
        save_sections sections =
          .ok (some (sectionGet ds "save" ".coafile", sections))) := by
  refine ⟨fun hb => ?_, fun hb => ?_, fun hb => ?_⟩ <;>
    simp [save_sections, h, hb]

theorem save_sections_spec_witness :
    save_sections
        [("default", (⟨"default", [("save", "myfile.coafile")], none⟩ : Section))]
      = .ok (some ("myfile.coafile",
          [("default",
            (⟨"default", [("save", "myfile.coafile")], none⟩ : Section))])) :=
  ((save_sections_spec
      [("default", (⟨"default", [("save", "myfile.coafile")], none⟩ : Section))]
      ⟨"default", [("save", "myfile.coafile")], none⟩
      (by decide)).2.2 (by decide)).trans
    (by rw [show sectionGet ⟨"default", [("save", "myfile.coafile")], none⟩
          "save" ".coafile" = "myfile.coafile" by decide])

/-- C4: the logging-object selection maps the lower-cased `log_type` setting
to the console printer for `"console"`, the null printer for `"none"`, and a
file printer at that path otherwise, falling back to a console printer with
exactly one warning naming the failed sink when construction fails; the log
level is the case-insensitive `log_level` lookup with fallback `WARNING`. -/
theorem retrieve_logging_objects_spec (fileOk : String → Bool) (sec : Section) :
    (strLower (sectionGet sec "log_type" "console") = "console" →
        (retrieve_logging_objects fileOk sec).log_printer =
          .console ((alookup LOG_LEVEL_str_dict
            (strUpper (sectionGet sec "log_level" ""))).getD LOG_LEVEL_WARNING) ∧
        (retrieve_logging_objects fileOk sec).warnings = []) ∧
    (strLower (sectionGet sec "log_type" "console") = "none" →
        (retrieve_logging_objects fileOk sec).log_printer = .null ∧
        (retrieve_logging_objects fileOk sec).warnings = []) ∧
    (strLower (sectionGet sec "log_type" "console") ≠ "console" →
      strLower (sectionGet sec "log_type" "console") ≠ "none" →
      fileOk (strLower (sectionGet sec "log_type" "console")) = true →
        (retrieve_logging_objects fileOk sec).log_printer =
          .file (strLower (sectionGet sec "log_type" "console"))
            ((alookup LOG_LEVEL_str_dict
              (strUpper (sectionGet sec "log_level" ""))).getD LOG_LEVEL_WARNING) ∧
        (retrieve_logging_objects fileOk sec).warnings = []) ∧
    (strLower (sectionGet sec "log_type" "console") ≠ "console" →
      strLower (sectionGet sec "log_type" "console") ≠ "none" →
      fileOk (strLower (sectionGet sec "log_type" "console")) = false →
        (retrieve_logging_objects fileOk sec).log_printer =
          .console ((alookup LOG_LEVEL_str_dict
            (strUpper (sectionGet sec "log_level" ""))).getD LOG_LEVEL_WARNING) ∧
        (retrieve_logging_objects fileOk sec).warnings =
          [failedPrinterWarning
            (strLower (sectionGet sec "log_type" "console"))]) := by
  refine ⟨fun h1 => ?_, fun h1 => ?_, fun h1 h2 h3 => ?_, fun h1 h2 h3 => ?_⟩
  · simp [retrieve_logging_objects, h1]
  · simp [retrieve_logging_objects, h1]
  · simp [retrieve_logging_objects, h1, h2, h3]
  · simp [retrieve_logging_objects, h1, h2, h3]

theorem retrieve_logging_objects_spec_witness :
    (retrieve_logging_objects (fun _ => false)
        ⟨"default", [("log_type", "/bad/path"), ("log_level", "debug")], none⟩).log_printer
      = LogPrinter.console 0 ∧
    (retrieve_logging_objects (fun _ => false)
        ⟨"default", [("log_type", "/bad/path"), ("log_level", "debug")], none⟩).warnings
      = [failedPrinterWarning "/bad/path"] := by
  have h := (retrieve_logging_objects_spec (fun _ => false)
      ⟨"default", [("log_type", "/bad/path"), ("log_level", "debug")], none⟩).2.2.2
      (by decide) (by decide) rfl
  exact ⟨h.1.trans (by decide), h.2.trans (by decide)⟩

/-- C5: the merged dictionary before the wiring pass has no `defaults`
reference set; after the wiring pass of `_load_configuration`, every section
other than `"default"` has its `defaults` reference set to the `"default"`
section, whose own `defaults` reference stays unset. -/
theorem load_configuration_defaults_wiring (abspath : String → String)
    (fs : String → ParseResult) (sys usr : String) (cli : SectionDict)
    (hfs : FsWellFormed fs) (hcli : DefaultsFree cli) :
    (∀ r, load_configuration_raw abspath fs sys usr cli = .ok r →
        DefaultsFree r.sections) ∧
    (∀ r, load_configuration abspath fs sys usr cli = .ok r →
        ∃ dflt, alookup r.sections "default" = some dflt ∧
          dflt.defaults = none ∧
          ∀ p ∈ r.sections, p.1 ≠ "default" →
            (p.2 : Section).defaults = some (dflt.name, dflt.contents)) := by
  constructor
  · intro r h
    exact (load_configuration_raw_good abspath fs sys usr cli hfs hcli r h).1
  · intro r h
    unfold load_configuration at h
    cases hraw : load_configuration_raw abspath fs sys usr cli with
    | error e => rw [hraw] at h; exact Except.noConfusion h
    | ok r0 =>
      rw [hraw] at h
      have h' : Except.ok
          ({ r0 with sections := wire_defaults r0.sections } : LoadedConfig)
          = Except.ok r := h
      obtain rfl := (Except.ok.injEq _ _).mp h'
      obtain ⟨hfree, hsome⟩ :=
        load_configuration_raw_good abspath fs sys usr cli hfs hcli r0 hraw
      obtain ⟨dflt, hdflt⟩ := Option.isSome_iff_exists.mp hsome
      refine ⟨dflt, ?_, ?_, ?_⟩
      · show alookup (wire_defaults r0.sections) "default" = some dflt
        rw [wire_lookup_default]; exact hdflt
      · exact hfree _ (alookup_mem _ _ _ hdflt)
      · intro p hp hne
        exact wire_defaults_set r0.sections dflt hdflt p hp hne

theorem load_configuration_defaults_wiring_witness :
    ∃ dflt,
      alookup [("default", (⟨"default", [], none⟩ : Section)),
        ("mysec", (⟨"mysec", [("bears", "X")], some ("default", [])⟩ : Section))]
        "default" = some dflt ∧
      dflt.defaults = none ∧
      ∀ p ∈ [("default", (⟨"default", [], none⟩ : Section)),
        ("mysec", (⟨"mysec", [("bears", "X")], some ("default", [])⟩ : Section))],
        p.1 ≠ "default" →
          (p.2 : Section).defaults = some (dflt.name, dflt.contents) :=
  (load_configuration_defaults_wiring id (fun _ => ParseResult.fileNotFound)
      "/sys" "/usr"
      [("default", ⟨"default", [], none⟩),
       ("mysec", ⟨"mysec", [("bears", "X")], none⟩)]
      (fun _ _ hpd => ParseResult.noConfusion hpd) (by decide)).2
    ⟨[("default", ⟨"default", [], none⟩),
      ("mysec", ⟨"mysec", [("bears", "X")], some ("default", [])⟩)],
     [],
     [missingCoafileWarning "/sys", missingCoafileWarning ".coafile"]⟩
    rfl

/-- C8 (counterexample): the CLI `targets` values are captured lower-cased,
but `targets` is not guaranteed absent from the persisted dictionary: a
config file that itself carries a `targets` setting in its `default` section
survives the merge, because only the CLI copy was popped. -/
theorem targets_persisted_counterexample :
    ∃ r, load_configuration id
        (fun _ => ParseResult.ok
          [("default", ⟨"default", [("targets", "foo")], none⟩)])
        "/sys" "/usr"
        [("default", ⟨"default", [("targets", "UP,Down")], none⟩)] = .ok r ∧
      r.targets = ["up", "down"] ∧
      dictLookup r.sections "default" "targets" = some "foo" :=
  ⟨⟨[("default", ⟨"default", [("targets", "foo")], none⟩)],
    ["up", "down"], []⟩, rfl, rfl, rfl⟩

/-- C8 (amended): every value of the CLI `default` section's `targets`
setting is lower-cased and collected into the targets list, and the setting
is removed from the CLI `default` section, so that — provided no config-file
layer itself carries a `targets` setting — `targets` is absent from the
merged section dictionary that is persisted. -/
theorem targets_captured_and_removed (abspath : String → String)
    (fs : String → ParseResult) (sys usr : String) (cli : SectionDict)
    (cliDef : Section) (hfs : FsWellFormed fs)
    (hnt : ∀ p d, fs p = ParseResult.ok d →
      dictLookup d "default" "targets" = none)
    (hcli : DictWF cli) (hc : alookup cli "default" = some cliDef)
    (r : LoadedConfig)
    (h : load_configuration abspath fs sys usr cli = .ok r) :
    r.targets = cliTargets cliDef ∧
    dictLookup r.sections "default" "targets" = none := by
  unfold load_configuration at h
  cases hraw : load_configuration_raw abspath fs sys usr cli with
  | error e => rw [hraw] at h; exact Except.noConfusion h
  | ok r0 =>
    rw [hraw] at h
    have h' : Except.ok
        ({ r0 with sections := wire_defaults r0.sections } : LoadedConfig)
        = Except.ok r := h
    obtain rfl := (Except.ok.injEq _ _).mp h'
    obtain ⟨cliDef2, ds, w1, us, w2, dDef, uDef, cs, w3,
      hc2, h1, h2, h3, h4, h5, hr⟩ :=
      load_configuration_raw_spec abspath fs sys usr cli r0 hraw
    injection hc.symm.trans hc2 with hcd
    subst hcd
    subst hr
    refine ⟨rfl, ?_⟩
    show dictLookup (wire_defaults _) "default" "targets" = none
    rw [wire_dictLookup]
    obtain ⟨husWF, -, -⟩ := load_config_file_good _ _ _ _ hfs _ _ h2
    obtain ⟨hcsWF, -, -⟩ := load_config_file_good _ _ _ _ hfs _ _ h5
    rw [merge_lookup _ _ (popTargets_WF cli hcli),
      merge_lookup _ _ hcsWF, merge_lookup _ _ husWF,
      dictLookup_popTargets cli cliDef hc
        (hcli.2 ("default", cliDef) (alookup_mem _ _ _ hc)),
      load_config_file_no_targets _ _ _ _ hnt _ _ h5,
      load_config_file_no_targets _ _ _ _ hnt _ _ h2,
      load_config_file_no_targets _ _ _ _ hnt _ _ h1]
    rfl

theorem targets_captured_and_removed_witness :
    (⟨[("default", (⟨"default", [], none⟩ : Section))], ["a", "b"],
      [missingCoafileWarning "/sys", missingCoafileWarning ".coafile"]⟩
        : LoadedConfig).targets
      = cliTargets ⟨"default", [("targets", "A,b")], none⟩ ∧
    dictLookup
        (⟨[("default", (⟨"default", [], none⟩ : Section))], ["a", "b"],
          [missingCoafileWarning "/sys", missingCoafileWarning ".coafile"]⟩
            : LoadedConfig).sections "default" "targets" = none :=
  targets_captured_and_removed id (fun _ => ParseResult.fileNotFound)
    "/sys" "/usr" [("default", ⟨"default", [("targets", "A,b")], none⟩)]
    ⟨"default", [("targets", "A,b")], none⟩
    (fun _ _ hpd => ParseResult.noConfusion hpd)
    (fun _ _ hpd => ParseResult.noConfusion hpd)
    (by decide) rfl _ rfl

/-- C10: the project config path is the chained fallback lookup: the CLI
`default` section's `config` setting if present, else the user file's, else
the system default file's, else the literal `.coafile`, made absolute. -/
theorem project_config_path_chain (abspath : String → String)
    (defaultDef userDef cliDef : Section)
    (hd : defaultDef.defaults = none) (hu : userDef.defaults = none)
    (hc : cliDef.defaults = none) :
    project_config_path abspath defaultDef userDef cliDef =
      chained_config_path abspath cliDef userDef defaultDef := by
  unfold project_config_path chained_config_path sectionGet
  rw [hd, hu, hc]
  cases alookup cliDef.contents "config" <;>
    cases alookup userDef.contents "config" <;>
      cases alookup defaultDef.contents "config" <;> simp

theorem project_config_path_chain_witness :
    project_config_path (fun s => "/abs/" ++ s)
        ⟨"default", [("config", "d.coafile")], none⟩
        ⟨"default", [("config", "u.coafile")], none⟩
        ⟨"default", [], none⟩
      = chained_config_path (fun s => "/abs/" ++ s)
        ⟨"default", [], none⟩
        ⟨"default", [("config", "u.coafile")], none⟩
        ⟨"default", [("config", "d.coafile")], none⟩ :=
  project_config_path_chain _ _ _ _ rfl rfl rfl

/-! ## Bear-heap lemmas -/

theorem hlookup_append (s e : List (Nat × String)) (i : Nat) :
    hlookup (s ++ e) i = (hlookup s i).or (hlookup e i) := by
  induction s with
  | nil => simp [hlookup]
  | cons hd t ih =>
    obtain ⟨j, v⟩ := hd
    by_cases hj : j = i <;> simp [hlookup, hj, ih]

theorem hlookup_of_lt_none (l : List (Nat × String)) (n i : Nat)
    (hall : ∀ q ∈ l, n ≤ q.1) (hi : i < n) : hlookup l i = none := by
  induction l with
  | nil => rfl
  | cons hd t ih =>
    obtain ⟨j, v⟩ := hd
    have hj : j ≠ i := by
      have := hall (j, v) (List.mem_cons_self _ _)
      omega
    simp only [hlookup, hj, if_false]
    exact ih fun q hq => hall q (List.mem_cons_of_mem _ hq)

theorem hlookup_hset (l : List (Nat × String)) (i : Nat) (v : String)
    (j2 : Nat) :
    hlookup (hset l i v) j2 = if i = j2 then some v else hlookup l j2 := by
  induction l with
  | nil => simp [hset, hlookup]
  | cons hd t ih =>
    obtain ⟨j, v0⟩ := hd
    by_cases hj : j = i
    · subst hj
      by_cases hj2 : j = j2 <;> simp [hset, hlookup, hj2]
    · by_cases hj2 : j = j2
      · subst hj2
        have hne : i ≠ j := fun hx => hj hx.symm
        simp [hset, hlookup, hj, hne]
      · simp [hset, hlookup, hj, hj2, ih]

theorem deepcopyBears_cons (h : BearHeap) (i : Nat) (t : List Nat) :
    deepcopyBears h (i :: t) =
      ((h.nextId :: (deepcopyBears ⟨h.nextId + 1,
          h.store ++ [(h.nextId, (hlookup h.store i).getD "")]⟩ t).1),
        (deepcopyBears ⟨h.nextId + 1,
          h.store ++ [(h.nextId, (hlookup h.store i).getD "")]⟩ t).2) := rfl

theorem deepcopyBears_spec (ids : List Nat) (h : BearHeap) :
    (deepcopyBears h ids).2.nextId = h.nextId + ids.length ∧
    (∀ c ∈ (deepcopyBears h ids).1,
      h.nextId ≤ c ∧ c < h.nextId + ids.length) ∧
    ∃ extra, (deepcopyBears h ids).2.store = h.store ++ extra ∧
      ∀ q ∈ extra, h.nextId ≤ q.1 := by
  induction ids generalizing h with
  | nil =>
    exact ⟨rfl, by simp [deepcopyBears], [], by simp [deepcopyBears], by simp⟩
  | cons i t ih =>
    obtain ⟨ihn, ihc, extra, ihs, ihk⟩ :=
      ih ⟨h.nextId + 1, h.store ++ [(h.nextId, (hlookup h.store i).getD "")]⟩
    dsimp only at ihn ihc ihs ihk
    rw [deepcopyBears_cons]
    refine ⟨?_, ?_, (h.nextId, (hlookup h.store i).getD "") :: extra, ?_, ?_⟩
    · rw [show ((h.nextId :: (deepcopyBears ⟨h.nextId + 1,
          h.store ++ [(h.nextId, (hlookup h.store i).getD "")]⟩ t).1),
          (deepcopyBears ⟨h.nextId + 1,
            h.store ++ [(h.nextId, (hlookup h.store i).getD "")]⟩ t).2).2
          = (deepcopyBears ⟨h.nextId + 1,
            h.store ++ [(h.nextId, (hlookup h.store i).getD "")]⟩ t).2 from rfl,
        ihn]
      simp only [List.length_cons]
      omega
    · intro c hc
      rcases List.mem_cons.mp hc with rfl | hc
      · simp only [List.length_cons]
        omega
      · obtain ⟨hc1, hc2⟩ := ihc c hc
        simp only [List.length_cons]
        omega
    · rw [show ((h.nextId :: (deepcopyBears ⟨h.nextId + 1,
          h.store ++ [(h.nextId, (hlookup h.store i).getD "")]⟩ t).1),
          (deepcopyBears ⟨h.nextId + 1,
            h.store ++ [(h.nextId, (hlookup h.store i).getD "")]⟩ t).2).2
          = (deepcopyBears ⟨h.nextId + 1,
            h.store ++ [(h.nextId, (hlookup h.store i).getD "")]⟩ t).2 from rfl,
        ihs]
      simp
    · intro q hq
      rcases List.mem_cons.mp hq with rfl | hq
      · exact Nat.le_refl _
      · have := ihk q hq
        omega

theorem bearValues_ext (h1 h2 : BearHeap) (ids : List Nat)
    (he : ∀ j ∈ ids, hlookup h1.store j = hlookup h2.store j) :
    bearValues h1 ids = bearValues h2 ids := by
  induction ids with
  | nil => rfl
  | cons i t ih =>
    unfold bearValues
    simp only [List.map_cons]
    rw [he i (List.mem_cons_self _ _)]
    have := ih fun j hj => he j (List.mem_cons_of_mem _ hj)
    unfold bearValues at this
    rw [this]

/-- C9 (counterexample): the combined bear list handed to the section filler
is not free of aliasing: descriptor 1 of the stored global-bears list is
itself an element of the combined list (only the local part was deep-copied),
and mutating it through the combined list changes what the stored global
collection observes. -/
theorem all_bears_alias_counterexample :
    1 ∈ (fill_settings_all_bears ⟨2, [(0, "L"), (1, "G")]⟩ [0] [1]).1 ∧
    bearValues
        (mutateBear (fill_settings_all_bears ⟨2, [(0, "L"), (1, "G")]⟩ [0] [1]).2
          1 "X") [1]
      ≠ bearValues (fill_settings_all_bears ⟨2, [(0, "L"), (1, "G")]⟩ [0] [1]).2
          [1] := by
  decide

/-- C9 (amended): the combined list is the deep copy of the LOCAL descriptors
followed by the GLOBAL descriptors themselves: every copied local descriptor
is fresh (aliased with neither stored collection) and mutating it leaves both
stored collections unchanged, while the global part of the combined list
remains aliased with the stored global-bears collection. -/
theorem all_bears_aliasing (h : BearHeap) (local_bears global_bears : List Nat)
    (hl : idsValid h local_bears) (hg : idsValid h global_bears) :
    (fill_settings_all_bears h local_bears global_bears).1
      = (deepcopyBears h local_bears).1 ++ global_bears ∧
    (∀ i ∈ (deepcopyBears h local_bears).1,
      i ∉ local_bears ∧ i ∉ global_bears) ∧
    (∀ i ∈ (deepcopyBears h local_bears).1, ∀ v,
      bearValues
          (mutateBear (fill_settings_all_bears h local_bears global_bears).2 i v)
          local_bears
        = bearValues (fill_settings_all_bears h local_bears global_bears).2
            local_bears ∧
      bearValues
          (mutateBear (fill_settings_all_bears h local_bears global_bears).2 i v)
          global_bears
        = bearValues (fill_settings_all_bears h local_bears global_bears).2
            global_bears) ∧
    (∀ i ∈ global_bears,
      i ∈ (fill_settings_all_bears h local_bears global_bears).1) := by
  obtain ⟨-, hmem, -⟩ := deepcopyBears_spec local_bears h
  refine ⟨rfl, ?_, ?_, ?_⟩
  · intro i hi
    obtain ⟨h1, -⟩ := hmem i hi
    exact ⟨fun hm => absurd (hl i hm) (by omega),
           fun hm => absurd (hg i hm) (by omega)⟩
  · intro i hi v
    obtain ⟨hge, -⟩ := hmem i hi
    constructor
    · refine bearValues_ext _ _ _ fun j hj => ?_
      have hjlt : j < h.nextId := hl j hj
      show hlookup (hset _ i v) j = _
      rw [hlookup_hset]
      exact if_neg (by omega)
    · refine bearValues_ext _ _ _ fun j hj => ?_
      have hjlt : j < h.nextId := hg j hj
      show hlookup (hset _ i v) j = _
      rw [hlookup_hset]
      exact if_neg (by omega)
  · intro i hi
    exact List.mem_append.mpr (Or.inr hi)

theorem all_bears_aliasing_witness :
    (fill_settings_all_bears ⟨2, [(0, "L"), (1, "G")]⟩ [0] [1]).1
      = (deepcopyBears ⟨2, [(0, "L"), (1, "G")]⟩ [0]).1 ++ [1] ∧
    (∀ i ∈ (deepcopyBears (⟨2, [(0, "L"), (1, "G")]⟩ : BearHeap) [0]).1,
      i ∉ [0] ∧ i ∉ [1]) ∧
    (∀ i ∈ (deepcopyBears (⟨2, [(0, "L"), (1, "G")]⟩ : BearHeap) [0]).1, ∀ v,
      bearValues
          (mutateBear (fill_settings_all_bears ⟨2, [(0, "L"), (1, "G")]⟩ [0] [1]).2
            i v) [0]
        = bearValues (fill_settings_all_bears ⟨2, [(0, "L"), (1, "G")]⟩ [0] [1]).2
            [0] ∧
      bearValues
          (mutateBear (fill_settings_all_bears ⟨2, [(0, "L"), (1, "G")]⟩ [0] [1]).2
            i v) [1]
        = bearValues (fill_settings_all_bears ⟨2, [(0, "L"), (1, "G")]⟩ [0] [1]).2
            [1]) ∧
    (∀ i ∈ [1],
      i ∈ (fill_settings_all_bears (⟨2, [(0, "L"), (1, "G")]⟩ : BearHeap)
        [0] [1]).1) :=
  all_bears_aliasing ⟨2, [(0, "L"), (1, "G")]⟩ [0] [1] (by decide) (by decide)

end Coala
